import Mathlib

/-!
Verification of the `realtime-config` repository (src/lib/index.js): a
live-reloading configuration loader.  The class `RealtimeConfig` polls a file,
detects change by modification timestamp, parses the content (YAML/JSON by
extension, otherwise evaluated source text), merges the parsed keys into its
configuration mapping, rebinds read-only accessor properties for every key, and
emits `update` / `error` events.

The JS code is shallowly embedded below: the filesystem primitives and the
three parse black boxes (yaml.safeLoad and the two `new Function` evaluators)
are passed in as function-valued parameters returning `Except` (a thrown JS
exception is `.error msg`, with `msg` the exception's `.message` string).
A poll cycle (`update`) is a pure function from the instance state to a
`CycleResult` recording the new state, the sequence of emitted events, the
filesystem/parse actions performed, whether an exception propagated out of
`update()`, and whether the `setTimeout` line rescheduling the next cycle was
reached.  Node's `EventEmitter` semantics are embedded in `emitErrorAndFinish`:
emitting `error` with no registered listener throws.
-/

set_option autoImplicit false

namespace RtConfig

/-- A JS value stored in a configuration mapping (enough structure for the
claims: values only need decidable equality). -/
inductive Val where
  | str (s : String)
  | num (n : Int)
  | boolean (b : Bool)
  deriving DecidableEq, Repr

/-- A JS object as an insertion-ordered association list, as `this[symbolConfig]`
is used in the source. -/
abbrev Obj := List (String × Val)

/-- `o[k]`: first entry with key `k`. -/
def objGet : Obj → String → Option Val
  | [], _ => none
  | (k0, v0) :: rest, k => if k0 = k then some v0 else objGet rest k

/-- Does the object have key `k`? -/
def objHas : Obj → String → Bool
  | [], _ => false
  | (k0, _) :: rest, k => k0 = k || objHas rest k

/-- `o[k] = v`: JS assignment updates an existing key in place and appends a
new key at the end (JS objects keep insertion order). -/
def objSet (o : Obj) (k : String) (v : Val) : Obj :=
  if objHas o k then o.map (fun p => if p.1 = k then (k, v) else p)
  else o ++ [(k, v)]

/-- `Object.keys`. -/
def objKeys (o : Obj) : List String := o.map Prod.fst

/-- `Object.keys(c).forEach(key => config[key] = c[key])` (lines 175-177 of
src/lib/index.js): merge every key of `c` into `config`. -/
def mergeInto (config c : Obj) : Obj :=
  c.foldl (fun acc p => objSet acc p.1 p.2) config

/-- Is `pat` a prefix of `l`? (character-list helper for `String.indexOf`). -/
def chPre : List Char → List Char → Bool
  | [], _ => true
  | _ :: _, [] => false
  | a :: as, b :: bs => a == b && chPre as bs

/-- Does `pat` occur as a contiguous substring of `l`? -/
def chSub (pat : List Char) : List Char → Bool
  | [] => chPre pat []
  | c :: rest => chPre pat (c :: rest) || chSub pat rest

/-- `s.indexOf(pat) >= 0` of JS strings. -/
def strContains (s pat : String) : Bool := chSub pat.data s.data

/-- The basename of a path: everything after the last `/`. -/
def basenameChars (s : List Char) : List Char :=
  (s.reverse.takeWhile (fun c => c ≠ '/')).reverse

/-- Index of the last `.` in a character list, if any. -/
def lastDotIdx (l : List Char) : Option Nat :=
  ((List.range l.length).filter (fun i => l[i]? = some '.')).getLast?

/-- Node's `path.extname`: the part of the basename from its last `.`; empty
when there is no dot, when the only dot starts a dotfile, or for `..`. -/
def extname (s : String) : String :=
  let b := basenameChars s.data
  if b = ['.', '.'] then ""
  else
    match lastDotIdx b with
    | none => ""
    | some 0 => ""
    | some i => ⟨b.drop i⟩

/-- JS `String.prototype.toLowerCase` (ASCII case map suffices here). -/
def jsToLowerCase (s : String) : String := ⟨s.data.map Char.toLower⟩

/-- The merged options record (line 112):
`Object.assign({interval: 60000, modifyTime: 0, filename: filename}, options)`.
`modifyTime` lives inside it and is the only field `update` mutates. -/
structure Options where
  interval : Nat
  modifyTime : Int
  filename : String
  debug : Bool
  deriving DecidableEq, Repr

/-- The caller-supplied options object: each recognized key may be present or
absent.  A handler models consumer callback code: `none` = returns normally,
`some msg` = throws an exception whose message is `msg`. -/
structure UserOptions where
  filename : Option String := none
  modifyTime : Option Int := none
  interval : Option Nat := none
  debug : Option Bool := none
  onupdate : Option (Obj → Option String) := none
  onerror : Option (String → Option String) := none

/-- Line 112: the defaults object is written first, then the caller's options
are assigned over it, so every present caller key wins. -/
def mkOptions (filename : String) (uo : UserOptions) : Options :=
  { interval := uo.interval.getD 60000
    modifyTime := uo.modifyTime.getD 0
    filename := uo.filename.getD filename
    debug := uo.debug.getD false }

/-- The registered event listeners (lines 113-118: `onupdate` / `onerror` are
registered exactly when the caller passed a function). -/
structure Handlers where
  onupdate : Option (Obj → Option String) := none
  onerror : Option (String → Option String) := none

/-- Lines 113-118 of the constructor. -/
def handlersOf (uo : UserOptions) : Handlers :=
  { onupdate := uo.onupdate, onerror := uo.onerror }

/-- The property descriptor bound by `Object.defineProperty` (lines 179-184):
a getter, no setter, configurable. -/
structure PropDescriptor where
  hasGetter : Bool
  hasSetter : Bool
  configurable : Bool
  deriving DecidableEq, Repr

/-- The descriptor the source binds: `{get: ..., configurable: true}` — a
getter and no `set` member. -/
def boundDescriptor : PropDescriptor :=
  { hasGetter := true, hasSetter := false, configurable := true }

/-- The mutable state of a `RealtimeConfig` instance: the merged options
(holding `modifyTime`), `this[symbolConfig]`, and the own properties bound by
`Object.defineProperty`. -/
structure Inst where
  options : Options
  config : Obj
  props : List (String × PropDescriptor)
  deriving DecidableEq, Repr

/-- Reading property `k` of the instance: a bound accessor's getter is
`() => this[symbolConfig][key]`, i.e. a live projection of the current
config mapping. -/
def propGet (inst : Inst) (k : String) : Option Val :=
  if k ∈ inst.props.map Prod.fst then objGet inst.config k else none

/-- The filesystem black box: `fs.statSync` (its mtime as a number) and
`fs.readFileSync` (as a string); `.error msg` is a thrown exception. -/
structure FS where
  stat : String → Except String Int
  read : String → Except String String

/-- The three parse black boxes: `yaml.safeLoad`, and the two `new Function`
evaluations (module body with `module.exports`, or a bare expression). -/
structure Parsers where
  yamlLoad : String → Except String Obj
  evalModule : String → Except String Obj
  evalExpr : String → Except String Obj

/-- Lines 159-172: dispatch on the lowercased extension; `.yaml`/`.yml`/`.json`
go to the YAML parser, anything else is evaluated as source text — as a module
body when the text contains `module.exports`, otherwise as a bare expression. -/
def parseContent (ps : Parsers) (filename content : String) : Except String Obj :=
  if jsToLowerCase (extname filename) = ".yaml"
      ∨ jsToLowerCase (extname filename) = ".yml"
      ∨ jsToLowerCase (extname filename) = ".json" then
    ps.yamlLoad content
  else if strContains content "module.exports" then
    ps.evalModule content
  else
    ps.evalExpr content

/-- An event emission performed during a cycle (the `emit` calls, with their
payloads). -/
inductive Event where
  | update (c : Obj)
  | error (msg : String)
  deriving DecidableEq, Repr

/-- A filesystem or parse action performed during a cycle (used to state that
an unchanged timestamp skips the read and the parse). -/
inductive Action where
  | statA (filename : String)
  | readA (filename : String)
  | parseA
  deriving DecidableEq, Repr

/-- The observable outcome of one `update()` call: the state afterwards, the
events emitted (in order), the actions performed, the exception propagating
out of `update()` if any, and whether the `setTimeout` rescheduling line
(195-197) was reached. -/
structure CycleResult where
  inst : Inst
  events : List Event
  actions : List Action
  thrown : Option String
  timerScheduled : Bool
  deriving DecidableEq, Repr

/-- Reaching the end of the try block normally: nothing thrown, next poll
scheduled. -/
def finishOk (inst : Inst) (events : List Event) (actions : List Action) :
    CycleResult :=
  { inst := inst, events := events, actions := actions, thrown := none,
    timerScheduled := true }

/-- The catch block (lines 189-194): `this.emit('error', ex.message)`.  With a
registered `error` listener the handler runs (and may itself throw); with no
listener, Node's `EventEmitter` throws on an unhandled `error` event, so the
exception propagates out of `update()` and the `setTimeout` line is never
reached. -/
def emitErrorAndFinish (h : Handlers) (inst : Inst) (events : List Event)
    (actions : List Action) (msg : String) : CycleResult :=
  match h.onerror with
  | none =>
      { inst := inst, events := events ++ [Event.error msg], actions := actions,
        thrown := some ("Unhandled error. (" ++ msg ++ ")"),
        timerScheduled := false }
  | some f =>
      match f msg with
      | some exn2 =>
          { inst := inst, events := events ++ [Event.error msg],
            actions := actions, thrown := some exn2, timerScheduled := false }
      | none =>
          { inst := inst, events := events ++ [Event.error msg],
            actions := actions, thrown := none, timerScheduled := true }

/-- `this.emit('update', c)` (line 186): runs the registered handler, which may
throw; with no listener the emission is a no-op returning false. -/
def emitUpdate (h : Handlers) (c : Obj) : Option String :=
  match h.onupdate with
  | none => none
  | some f => f c

/-- Lines 173-185 of the success path, in source order: set
`options.modifyTime` to the statted mtime, merge the parsed keys into
`this[symbolConfig]`, then rebind a getter-only configurable property for every
key now in the config. -/
def applyReload (inst : Inst) (mtime : Int) (c : Obj) : Inst :=
  let config' := mergeInto inst.config c
  { options := { inst.options with modifyTime := mtime }
    config := config'
    props := (objKeys config').map (fun k => (k, boundDescriptor)) }

/-- The actions of a full reload attempt (stat, read, parse). -/
def reloadActions (inst : Inst) : List Action :=
  [Action.statA inst.options.filename, Action.readA inst.options.filename,
   Action.parseA]

/-- `update()` (lines 151-198), one poll cycle.  The try block: stat; if the
mtime differs from `options.modifyTime`, read, parse by extension, commit
`modifyTime`, merge, rebind properties and emit `update`; an exception at any
point transfers to the catch block, which emits `error` with the exception's
message.  The `setTimeout` line afterwards is reached unless the catch block
itself throws. -/
def update (fs : FS) (ps : Parsers) (h : Handlers) (inst : Inst) : CycleResult :=
  match fs.stat inst.options.filename with
  | Except.error e =>
      emitErrorAndFinish h inst [] [Action.statA inst.options.filename] e
  | Except.ok mtime =>
      if inst.options.modifyTime ≠ mtime then
        match fs.read inst.options.filename with
        | Except.error e =>
            emitErrorAndFinish h inst []
              [Action.statA inst.options.filename,
               Action.readA inst.options.filename] e
        | Except.ok content =>
            match parseContent ps inst.options.filename content with
            | Except.error e =>
                emitErrorAndFinish h inst [] (reloadActions inst) e
            | Except.ok c =>
                match emitUpdate h c with
                | some exn =>
                    emitErrorAndFinish h (applyReload inst mtime c)
                      [Event.update c] (reloadActions inst) exn
                | none =>
                    finishOk (applyReload inst mtime c) [Event.update c]
                      (reloadActions inst)
      else
        finishOk inst [] [Action.statA inst.options.filename]

/-- The constructor (lines 110-121): merge options, register handlers, start
from an empty config with no bound properties, and run the first `update()`
synchronously.  A `thrown` outcome of this first cycle propagates to the
caller of `new RealtimeConfig(...)`. -/
def construct (fs : FS) (ps : Parsers) (filename : String) (uo : UserOptions) :
    CycleResult :=
  update fs ps (handlersOf uo)
    { options := mkOptions filename uo, config := [], props := [] }

/-- `getJSON()` (lines 127-129). -/
def getJSON (inst : Inst) : Obj := inst.config

/-! ### Concrete environments used to instantiate the theorems -/

/-- A filesystem where the file is missing: every stat and read throws
`ENOENT`. -/
def fsGone : FS :=
  { stat := fun _ => Except.error "ENOENT"
    read := fun _ => Except.error "ENOENT" }

/-- A filesystem where the file exists with mtime 7 and content `host: a`. -/
def fsOk : FS :=
  { stat := fun _ => Except.ok 7
    read := fun _ => Except.ok "host: a" }

/-- A filesystem whose file has mtime 3, older than an already stored
timestamp of 5. -/
def fsOld : FS :=
  { stat := fun _ => Except.ok 3
    read := fun _ => Except.ok "host: a" }

/-- A filesystem whose file still has mtime 0, matching the stored
timestamp. -/
def fsSame : FS :=
  { stat := fun _ => Except.ok 0
    read := fun _ => Except.ok "host: a" }

/-- Concrete parse black boxes: the YAML parser yields `host: "a"`, the two
evaluators tag their input. -/
def psFix : Parsers :=
  { yamlLoad := fun _ => Except.ok [("host", Val.str "a")]
    evalModule := fun content => Except.ok [("mod", Val.str content)]
    evalExpr := fun content => Except.ok [("expr", Val.str content)] }

/-- An instance mid-life: watching `conf.json`, timestamp 0, one key `a`
already merged and exposed. -/
def instFix : Inst :=
  { options :=
      { interval := 60000, modifyTime := 0, filename := "conf.json",
        debug := false }
    config := [("a", Val.num 1)]
    props := [("a", boundDescriptor)] }

/-- An instance whose stored timestamp 5 is newer than the file's mtime 3. -/
def instLate : Inst :=
  { options :=
      { interval := 60000, modifyTime := 5, filename := "conf.json",
        debug := false }
    config := []
    props := [] }

/-- An `onerror` listener that returns normally. -/
def hSafe : Handlers := { onerror := some (fun _ => none) }

/-- An `onupdate` handler that throws `boom`, with a quiet `onerror`
listener. -/
def hThrowUpd : Handlers :=
  { onupdate := some (fun _ => some "boom")
    onerror := some (fun _ => none) }

/-- An `onupdate` handler that throws `boom`, and an `onerror` listener that
rethrows whatever message it receives. -/
def hThrowBoth : Handlers :=
  { onupdate := some (fun _ => some "boom")
    onerror := some (fun m => some m) }

/-- Caller options that carry their own `filename`, `modifyTime` and
`interval` keys. -/
def uoW : UserOptions :=
  { filename := some "alt.yaml", modifyTime := some 42, interval := some 500 }

/-! ### Lemmas about the object operations -/

theorem objGet_nil (k : String) : objGet [] k = none := rfl

theorem objGet_cons (k0 : String) (v0 : Val) (rest : Obj) (k : String) :
    objGet ((k0, v0) :: rest) k = if k0 = k then some v0 else objGet rest k := rfl

theorem objHas_nil (k : String) : objHas [] k = false := rfl

theorem objHas_cons (k0 : String) (v0 : Val) (rest : Obj) (k : String) :
    objHas ((k0, v0) :: rest) k = (decide (k0 = k) || objHas rest k) := rfl

theorem objKeys_nil : objKeys [] = [] := rfl

theorem objKeys_cons (k0 : String) (v0 : Val) (rest : Obj) :
    objKeys ((k0, v0) :: rest) = k0 :: objKeys rest := rfl

theorem objKeys_append (a b : Obj) :
    objKeys (a ++ b) = objKeys a ++ objKeys b := by
  simp [objKeys]

theorem objHas_iff_mem (o : Obj) (k : String) :
    objHas o k = true ↔ k ∈ objKeys o := by
  induction o with
  | nil => simp [objHas_nil, objKeys_nil]
  | cons p rest ih =>
      cases p with
      | mk k0 v0 =>
          rw [objHas_cons, objKeys_cons]
          simp only [Bool.or_eq_true, decide_eq_true_eq, List.mem_cons, ih]
          constructor
          · rintro (h1 | h1)
            · exact Or.inl h1.symm
            · exact Or.inr h1
          · rintro (h1 | h1)
            · exact Or.inl h1.symm
            · exact Or.inr h1

theorem objGet_map_update (o : Obj) (k : String) (v : Val)
    (h : objHas o k = true) :
    objGet (o.map (fun p => if p.1 = k then (k, v) else p)) k = some v := by
  induction o with
  | nil => simp [objHas_nil] at h
  | cons p rest ih =>
      cases p with
      | mk k0 v0 =>
          rw [List.map_cons]
          by_cases hk : k0 = k
          · subst hk
            simp [objGet_cons]
          · rw [objHas_cons] at h
            simp only [hk, decide_False, Bool.false_or] at h
            simpa [objGet_cons, hk] using ih h

theorem objGet_append_single (o : Obj) (k : String) (v : Val)
    (h : objHas o k = false) :
    objGet (o ++ [(k, v)]) k = some v := by
  induction o with
  | nil => simp [objGet_cons]
  | cons p rest ih =>
      cases p with
      | mk k0 v0 =>
          rw [objHas_cons] at h
          simp only [Bool.or_eq_false_iff, decide_eq_false_iff_not] at h
          simpa [objGet_cons, h.1] using ih h.2

theorem objGet_objSet_self (o : Obj) (k : String) (v : Val) :
    objGet (objSet o k v) k = some v := by
  unfold objSet
  by_cases h : objHas o k
  · rw [if_pos h]
    exact objGet_map_update o k v h
  · rw [if_neg h]
    exact objGet_append_single o k v (by simpa using h)

theorem objGet_map_update_other (o : Obj) (k k' : String) (v : Val)
    (hne : k' ≠ k) :
    objGet (o.map (fun p => if p.1 = k then (k, v) else p)) k'
      = objGet o k' := by
  induction o with
  | nil => rfl
  | cons p rest ih =>
      cases p with
      | mk k0 v0 =>
          rw [List.map_cons]
          by_cases hk : k0 = k
          · subst hk
            have hne' : ¬k0 = k' := fun h => hne h.symm
            simp [objGet_cons, hne', ih]
          · by_cases hk2 : k0 = k'
            · simp [objGet_cons, hk, hk2, hne]
            · simp [objGet_cons, hk, hk2, ih]

theorem objGet_append_single_other (o : Obj) (k k' : String) (v : Val)
    (hne : k' ≠ k) :
    objGet (o ++ [(k, v)]) k' = objGet o k' := by
  induction o with
  | nil =>
      have hne' : ¬k = k' := fun h => hne h.symm
      simp [objGet_cons, hne']
  | cons p rest ih =>
      cases p with
      | mk k0 v0 =>
          by_cases hk : k0 = k'
          · simp [objGet_cons, hk]
          · simp [objGet_cons, hk, ih]

theorem objGet_objSet_other (o : Obj) (k k' : String) (v : Val)
    (hne : k' ≠ k) :
    objGet (objSet o k v) k' = objGet o k' := by
  unfold objSet
  by_cases h : objHas o k
  · rw [if_pos h]
    exact objGet_map_update_other o k k' v hne
  · rw [if_neg h]
    exact objGet_append_single_other o k k' v hne

theorem objKeys_map_update (o : Obj) (k : String) (v : Val) :
    objKeys (o.map (fun p => if p.1 = k then (k, v) else p)) = objKeys o := by
  induction o with
  | nil => rfl
  | cons p rest ih =>
      cases p with
      | mk k0 v0 =>
          rw [List.map_cons]
          by_cases hk : k0 = k
          · subst hk
            simp [objKeys_cons, ih]
          · simp [objKeys_cons, hk, ih]

theorem mem_objKeys_objSet (o : Obj) (k k' : String) (v : Val)
    (h : k' ∈ objKeys o) : k' ∈ objKeys (objSet o k v) := by
  unfold objSet
  by_cases hh : objHas o k
  · rw [if_pos hh, objKeys_map_update]
    exact h
  · rw [if_neg hh, objKeys_append]
    exact List.mem_append_left _ h

theorem mem_objKeys_objSet_self (o : Obj) (k : String) (v : Val) :
    k ∈ objKeys (objSet o k v) := by
  unfold objSet
  by_cases hh : objHas o k
  · rw [if_pos hh, objKeys_map_update]
    exact (objHas_iff_mem o k).mp hh
  · rw [if_neg hh, objKeys_append]
    exact List.mem_append_right _ (by simp [objKeys_cons])

theorem mergeInto_nil (o : Obj) : mergeInto o [] = o := rfl

theorem mergeInto_cons (o : Obj) (k1 : String) (v1 : Val) (rest : Obj) :
    mergeInto o ((k1, v1) :: rest) = mergeInto (objSet o k1 v1) rest := rfl

theorem mergeInto_get_not_mem (c : Obj) (k : String) (h : k ∉ objKeys c) :
    ∀ o : Obj, objGet (mergeInto o c) k = objGet o k := by
  induction c with
  | nil => intro o; rfl
  | cons p rest ih =>
      intro o
      cases p with
      | mk k1 v1 =>
          rw [objKeys_cons, List.mem_cons] at h
          push_neg at h
          rw [mergeInto_cons, ih h.2]
          exact objGet_objSet_other o k1 k v1 h.1

theorem mergeInto_get_mem (c : Obj) (k : String) (v : Val)
    (hnd : (objKeys c).Nodup) (hm : (k, v) ∈ c) :
    ∀ o : Obj, objGet (mergeInto o c) k = some v := by
  induction c with
  | nil => cases hm
  | cons p rest ih =>
      intro o
      cases p with
      | mk k1 v1 =>
          rw [objKeys_cons, List.nodup_cons] at hnd
          rcases List.mem_cons.mp hm with h | h
          · rw [Prod.mk.injEq] at h
            obtain ⟨hk, hv⟩ := h
            subst hk
            subst hv
            rw [mergeInto_cons, mergeInto_get_not_mem rest k hnd.1]
            exact objGet_objSet_self o k v
          · rw [mergeInto_cons]
            exact ih hnd.2 h (objSet o k1 v1)

theorem mem_objKeys_mergeInto_left (c : Obj) (k : String) :
    ∀ o : Obj, k ∈ objKeys o → k ∈ objKeys (mergeInto o c) := by
  induction c with
  | nil => intro o h; exact h
  | cons p rest ih =>
      intro o h
      cases p with
      | mk k1 v1 =>
          rw [mergeInto_cons]
          exact ih (objSet o k1 v1) (mem_objKeys_objSet o k1 k v1 h)

theorem mem_objKeys_mergeInto_right (c : Obj) (k : String)
    (h : k ∈ objKeys c) : ∀ o : Obj, k ∈ objKeys (mergeInto o c) := by
  induction c with
  | nil => rw [objKeys_nil] at h; cases h
  | cons p rest ih =>
      intro o
      cases p with
      | mk k1 v1 =>
          rw [mergeInto_cons]
          by_cases hk : k = k1
          · subst hk
            exact mem_objKeys_mergeInto_left rest k (objSet o k v1)
              (mem_objKeys_objSet_self o k v1)
          · have hr : k ∈ objKeys rest := by
              rw [objKeys_cons, List.mem_cons] at h
              exact h.resolve_left hk
            exact ih hr (objSet o k1 v1)

/-! ### Characterization of one poll cycle -/

theorem finishOk_inst (inst : Inst) (evs : List Event) (acts : List Action) :
    (finishOk inst evs acts).inst = inst := rfl

theorem finishOk_events (inst : Inst) (evs : List Event) (acts : List Action) :
    (finishOk inst evs acts).events = evs := rfl

theorem finishOk_actions (inst : Inst) (evs : List Event) (acts : List Action) :
    (finishOk inst evs acts).actions = acts := rfl

theorem finishOk_thrown (inst : Inst) (evs : List Event) (acts : List Action) :
    (finishOk inst evs acts).thrown = none := rfl

theorem finishOk_timer (inst : Inst) (evs : List Event) (acts : List Action) :
    (finishOk inst evs acts).timerScheduled = true := rfl

theorem emitErrorAndFinish_inst (h : Handlers) (inst : Inst) (evs : List Event)
    (acts : List Action) (msg : String) :
    (emitErrorAndFinish h inst evs acts msg).inst = inst := by
  cases ho : h.onerror with
  | none => simp [emitErrorAndFinish, ho]
  | some f =>
      cases hfm : f msg with
      | none => simp [emitErrorAndFinish, ho, hfm]
      | some e2 => simp [emitErrorAndFinish, ho, hfm]

theorem emitErrorAndFinish_events (h : Handlers) (inst : Inst) (evs : List Event)
    (acts : List Action) (msg : String) :
    (emitErrorAndFinish h inst evs acts msg).events = evs ++ [Event.error msg] := by
  cases ho : h.onerror with
  | none => simp [emitErrorAndFinish, ho]
  | some f =>
      cases hfm : f msg with
      | none => simp [emitErrorAndFinish, ho, hfm]
      | some e2 => simp [emitErrorAndFinish, ho, hfm]

theorem emitErrorAndFinish_actions (h : Handlers) (inst : Inst) (evs : List Event)
    (acts : List Action) (msg : String) :
    (emitErrorAndFinish h inst evs acts msg).actions = acts := by
  cases ho : h.onerror with
  | none => simp [emitErrorAndFinish, ho]
  | some f =>
      cases hfm : f msg with
      | none => simp [emitErrorAndFinish, ho, hfm]
      | some e2 => simp [emitErrorAndFinish, ho, hfm]

theorem emitErrorAndFinish_none_thrown (h : Handlers) (inst : Inst)
    (evs : List Event) (acts : List Action) (msg : String)
    (hno : h.onerror = none) :
    (emitErrorAndFinish h inst evs acts msg).thrown
        = some ("Unhandled error. (" ++ msg ++ ")")
      ∧ (emitErrorAndFinish h inst evs acts msg).timerScheduled = false := by
  unfold emitErrorAndFinish
  rw [hno]
  exact ⟨rfl, rfl⟩

theorem emitErrorAndFinish_safe (h : Handlers) (g : String → Option String)
    (hg : h.onerror = some g) (hnone : ∀ m, g m = none) (inst : Inst)
    (evs : List Event) (acts : List Action) (msg : String) :
    (emitErrorAndFinish h inst evs acts msg).thrown = none
      ∧ (emitErrorAndFinish h inst evs acts msg).timerScheduled = true := by
  unfold emitErrorAndFinish
  simp [hg, hnone]

theorem emitErrorAndFinish_rethrow (h : Handlers) (g : String → Option String)
    (msg e2 : String) (hg : h.onerror = some g) (hthrow : g msg = some e2)
    (inst : Inst) (evs : List Event) (acts : List Action) :
    (emitErrorAndFinish h inst evs acts msg).thrown = some e2
      ∧ (emitErrorAndFinish h inst evs acts msg).timerScheduled = false := by
  unfold emitErrorAndFinish
  simp [hg, hthrow]

theorem update_stat_error (fs : FS) (ps : Parsers) (h : Handlers) (inst : Inst)
    (e : String) (hstat : fs.stat inst.options.filename = Except.error e) :
    update fs ps h inst
      = emitErrorAndFinish h inst [] [Action.statA inst.options.filename] e := by
  unfold update
  simp only [hstat]

theorem update_unchanged (fs : FS) (ps : Parsers) (h : Handlers) (inst : Inst)
    (mtime : Int) (hstat : fs.stat inst.options.filename = Except.ok mtime)
    (heq : inst.options.modifyTime = mtime) :
    update fs ps h inst
      = finishOk inst [] [Action.statA inst.options.filename] := by
  unfold update
  simp only [hstat]
  rw [if_neg (by simp [heq])]

theorem update_read_error (fs : FS) (ps : Parsers) (h : Handlers) (inst : Inst)
    (mtime : Int) (e : String)
    (hstat : fs.stat inst.options.filename = Except.ok mtime)
    (hne : inst.options.modifyTime ≠ mtime)
    (hread : fs.read inst.options.filename = Except.error e) :
    update fs ps h inst
      = emitErrorAndFinish h inst []
          [Action.statA inst.options.filename,
           Action.readA inst.options.filename] e := by
  unfold update
  simp only [hstat]
  rw [if_pos hne]
  simp only [hread]

theorem update_parse_error (fs : FS) (ps : Parsers) (h : Handlers) (inst : Inst)
    (mtime : Int) (content e : String)
    (hstat : fs.stat inst.options.filename = Except.ok mtime)
    (hne : inst.options.modifyTime ≠ mtime)
    (hread : fs.read inst.options.filename = Except.ok content)
    (hparse : parseContent ps inst.options.filename content = Except.error e) :
    update fs ps h inst
      = emitErrorAndFinish h inst [] (reloadActions inst) e := by
  unfold update
  simp only [hstat]
  rw [if_pos hne]
  simp only [hread, hparse]

theorem update_reload_char (fs : FS) (ps : Parsers) (h : Handlers) (inst : Inst)
    (mtime : Int) (content : String) (c : Obj)
    (hstat : fs.stat inst.options.filename = Except.ok mtime)
    (hne : inst.options.modifyTime ≠ mtime)
    (hread : fs.read inst.options.filename = Except.ok content)
    (hparse : parseContent ps inst.options.filename content = Except.ok c) :
    update fs ps h inst
      = match emitUpdate h c with
        | some exn =>
            emitErrorAndFinish h (applyReload inst mtime c) [Event.update c]
              (reloadActions inst) exn
        | none =>
            finishOk (applyReload inst mtime c) [Event.update c]
              (reloadActions inst) := by
  unfold update
  simp only [hstat]
  rw [if_pos hne]
  simp only [hread, hparse]

theorem update_reload_inst (fs : FS) (ps : Parsers) (h : Handlers) (inst : Inst)
    (mtime : Int) (content : String) (c : Obj)
    (hstat : fs.stat inst.options.filename = Except.ok mtime)
    (hne : inst.options.modifyTime ≠ mtime)
    (hread : fs.read inst.options.filename = Except.ok content)
    (hparse : parseContent ps inst.options.filename content = Except.ok c) :
    (update fs ps h inst).inst = applyReload inst mtime c := by
  rw [update_reload_char fs ps h inst mtime content c hstat hne hread hparse]
  cases he : emitUpdate h c with
  | none => rfl
  | some exn => exact emitErrorAndFinish_inst h _ _ _ exn

theorem update_reload_events (fs : FS) (ps : Parsers) (h : Handlers)
    (inst : Inst) (mtime : Int) (content : String) (c : Obj)
    (hstat : fs.stat inst.options.filename = Except.ok mtime)
    (hne : inst.options.modifyTime ≠ mtime)
    (hread : fs.read inst.options.filename = Except.ok content)
    (hparse : parseContent ps inst.options.filename content = Except.ok c) :
    (update fs ps h inst).events = [Event.update c]
      ∨ ∃ exn, (update fs ps h inst).events
          = [Event.update c, Event.error exn] := by
  rw [update_reload_char fs ps h inst mtime content c hstat hne hread hparse]
  cases he : emitUpdate h c with
  | none => exact Or.inl rfl
  | some exn =>
      right
      exact ⟨exn, by simp [emitErrorAndFinish_events]⟩

theorem update_inst_cases (fs : FS) (ps : Parsers) (h : Handlers) (inst : Inst) :
    (update fs ps h inst).inst = inst
      ∨ ∃ mtime c, fs.stat inst.options.filename = Except.ok mtime
          ∧ (update fs ps h inst).inst = applyReload inst mtime c := by
  cases hs : fs.stat inst.options.filename with
  | error e =>
      left
      rw [update_stat_error fs ps h inst e hs]
      exact emitErrorAndFinish_inst h inst _ _ e
  | ok mtime =>
      by_cases hne : inst.options.modifyTime ≠ mtime
      · cases hr : fs.read inst.options.filename with
        | error e =>
            left
            rw [update_read_error fs ps h inst mtime e hs hne hr]
            exact emitErrorAndFinish_inst h inst _ _ e
        | ok content =>
            cases hp : parseContent ps inst.options.filename content with
            | error e =>
                left
                rw [update_parse_error fs ps h inst mtime content e hs hne hr hp]
                exact emitErrorAndFinish_inst h inst _ _ e
            | ok c =>
                right
                exact ⟨mtime, c, rfl,
                  update_reload_inst fs ps h inst mtime content c hs hne hr hp⟩
      · left
        rw [update_unchanged fs ps h inst mtime hs (not_not.mp hne)]
        rfl

theorem update_first_action (fs : FS) (ps : Parsers) (h : Handlers)
    (inst : Inst) :
    ∃ rest, (update fs ps h inst).actions
      = Action.statA inst.options.filename :: rest := by
  cases hs : fs.stat inst.options.filename with
  | error e =>
      refine ⟨[], ?_⟩
      rw [update_stat_error fs ps h inst e hs]
      exact emitErrorAndFinish_actions h inst _ _ e
  | ok mtime =>
      by_cases hne : inst.options.modifyTime ≠ mtime
      · cases hr : fs.read inst.options.filename with
        | error e =>
            refine ⟨[Action.readA inst.options.filename], ?_⟩
            rw [update_read_error fs ps h inst mtime e hs hne hr]
            exact emitErrorAndFinish_actions h inst _ _ e
        | ok content =>
            cases hp : parseContent ps inst.options.filename content with
            | error e =>
                refine ⟨[Action.readA inst.options.filename, Action.parseA], ?_⟩
                rw [update_parse_error fs ps h inst mtime content e hs hne hr hp]
                exact emitErrorAndFinish_actions h inst _ _ e
            | ok c =>
                refine ⟨[Action.readA inst.options.filename, Action.parseA], ?_⟩
                rw [update_reload_char fs ps h inst mtime content c hs hne hr hp]
                cases he : emitUpdate h c with
                | none => rfl
                | some exn => exact emitErrorAndFinish_actions h _ _ _ exn
      · refine ⟨[], ?_⟩
        rw [update_unchanged fs ps h inst mtime hs (not_not.mp hne)]
        rfl

theorem update_safe_no_throw (fs : FS) (ps : Parsers) (h : Handlers)
    (inst : Inst) (g : String → Option String) (hg : h.onerror = some g)
    (hnone : ∀ m, g m = none) :
    (update fs ps h inst).thrown = none
      ∧ (update fs ps h inst).timerScheduled = true := by
  cases hs : fs.stat inst.options.filename with
  | error e =>
      rw [update_stat_error fs ps h inst e hs]
      exact emitErrorAndFinish_safe h g hg hnone inst _ _ e
  | ok mtime =>
      by_cases hne : inst.options.modifyTime ≠ mtime
      · cases hr : fs.read inst.options.filename with
        | error e =>
            rw [update_read_error fs ps h inst mtime e hs hne hr]
            exact emitErrorAndFinish_safe h g hg hnone inst _ _ e
        | ok content =>
            cases hp : parseContent ps inst.options.filename content with
            | error e =>
                rw [update_parse_error fs ps h inst mtime content e hs hne hr hp]
                exact emitErrorAndFinish_safe h g hg hnone inst _ _ e
            | ok c =>
                rw [update_reload_char fs ps h inst mtime content c hs hne hr hp]
                cases he : emitUpdate h c with
                | none => exact ⟨rfl, rfl⟩
                | some exn =>
                    exact emitErrorAndFinish_safe h g hg hnone _ _ _ exn
      · rw [update_unchanged fs ps h inst mtime hs (not_not.mp hne)]
        exact ⟨rfl, rfl⟩

theorem emitErrorAndFinish_handled (h : Handlers) (g : String → Option String)
    (msg : String) (hg : h.onerror = some g) (hmsg : g msg = none)
    (inst : Inst) (evs : List Event) (acts : List Action) :
    (emitErrorAndFinish h inst evs acts msg).thrown = none
      ∧ (emitErrorAndFinish h inst evs acts msg).timerScheduled = true := by
  unfold emitErrorAndFinish
  simp [hg, hmsg]

/-! ### The claims -/

/-- C1: a poll cycle in which the stat, the read or the parse step fails emits
exactly one `error` event, carrying the failing step's error message, and
leaves the whole instance state — in particular `currentConfig`
(`inst.config`) and `lastModifiedTime` (`inst.options.modifyTime`) —
unchanged; a cycle in which the file has disappeared is the stat-failure
case. -/
theorem cycle_failure_preserves_state (fs : FS) (ps : Parsers) (h : Handlers)
    (inst : Inst) (e : String)
    (hfail : fs.stat inst.options.filename = Except.error e
      ∨ (∃ mtime, fs.stat inst.options.filename = Except.ok mtime
          ∧ inst.options.modifyTime ≠ mtime
          ∧ fs.read inst.options.filename = Except.error e)
      ∨ (∃ mtime content, fs.stat inst.options.filename = Except.ok mtime
          ∧ inst.options.modifyTime ≠ mtime
          ∧ fs.read inst.options.filename = Except.ok content
          ∧ parseContent ps inst.options.filename content = Except.error e)) :
    (update fs ps h inst).inst = inst
      ∧ (update fs ps h inst).events = [Event.error e] := by
  rcases hfail with hs | ⟨mtime, hs, hne, hr⟩ | ⟨mtime, content, hs, hne, hr, hp⟩
  · rw [update_stat_error fs ps h inst e hs]
    exact ⟨emitErrorAndFinish_inst h inst _ _ e,
      by simp [emitErrorAndFinish_events]⟩
  · rw [update_read_error fs ps h inst mtime e hs hne hr]
    exact ⟨emitErrorAndFinish_inst h inst _ _ e,
      by simp [emitErrorAndFinish_events]⟩
  · rw [update_parse_error fs ps h inst mtime content e hs hne hr hp]
    exact ⟨emitErrorAndFinish_inst h inst _ _ e,
      by simp [emitErrorAndFinish_events]⟩

/-- Witness for C1: a concrete vanished-file cycle. -/
theorem cycle_failure_preserves_state_witness :
    (update fsGone psFix hSafe instFix).inst = instFix
      ∧ (update fsGone psFix hSafe instFix).events = [Event.error "ENOENT"] :=
  cycle_failure_preserves_state fsGone psFix hSafe instFix "ENOENT" (Or.inl rfl)

/-- C2: a successful reload merges the freshly parsed mapping into the
config: keys absent from the new mapping keep their previous value, keys
present in the new mapping take the new value (or are added), and no cycle of
any kind ever removes a key. -/
theorem reload_merge_accumulates (fs : FS) (ps : Parsers) (h : Handlers)
    (inst : Inst) (mtime : Int) (content : String) (c : Obj)
    (hstat : fs.stat inst.options.filename = Except.ok mtime)
    (hne : inst.options.modifyTime ≠ mtime)
    (hread : fs.read inst.options.filename = Except.ok content)
    (hparse : parseContent ps inst.options.filename content = Except.ok c) :
    (update fs ps h inst).inst.config = mergeInto inst.config c
      ∧ (∀ k, k ∈ objKeys inst.config → k ∉ objKeys c →
          objGet (update fs ps h inst).inst.config k = objGet inst.config k)
      ∧ ((objKeys c).Nodup → ∀ k v, (k, v) ∈ c →
          objGet (update fs ps h inst).inst.config k = some v)
      ∧ (∀ k, k ∈ objKeys inst.config ∨ k ∈ objKeys c →
          k ∈ objKeys (update fs ps h inst).inst.config)
      ∧ (∀ fs2 ps2 h2 inst2 k, k ∈ objKeys inst2.config →
          k ∈ objKeys (update fs2 ps2 h2 inst2).inst.config) := by
  have hinst := update_reload_inst fs ps h inst mtime content c hstat hne hread hparse
  have hcfg : (update fs ps h inst).inst.config = mergeInto inst.config c := by
    rw [hinst]
    rfl
  refine ⟨hcfg, ?_, ?_, ?_, ?_⟩
  · intro k hk hnk
    rw [hcfg]
    exact mergeInto_get_not_mem c k hnk inst.config
  · intro hnd k v hm
    rw [hcfg]
    exact mergeInto_get_mem c k v hnd hm inst.config
  · intro k hk
    rw [hcfg]
    rcases hk with hk | hk
    · exact mem_objKeys_mergeInto_left c k inst.config hk
    · exact mem_objKeys_mergeInto_right c k hk inst.config
  · intro fs2 ps2 h2 inst2 k hk
    rcases update_inst_cases fs2 ps2 h2 inst2 with hcase | ⟨mt2, c2, _, hcase⟩
    · rw [hcase]; exact hk
    · rw [hcase]
      exact mem_objKeys_mergeInto_left c2 k inst2.config hk

/-- Witness for C2: after reloading `host: "a"` over a config holding `a`,
the old key keeps its value, the new key appears, and both are present. -/
theorem reload_merge_accumulates_witness :
    objGet (update fsOk psFix hSafe instFix).inst.config "a" = some (Val.num 1)
      ∧ objGet (update fsOk psFix hSafe instFix).inst.config "host"
          = some (Val.str "a")
      ∧ "a" ∈ objKeys (update fsOk psFix hSafe instFix).inst.config := by
  have h := reload_merge_accumulates fsOk psFix hSafe instFix 7 "host: a"
    [("host", Val.str "a")] rfl (by decide) rfl rfl
  exact ⟨by
      have := h.2.1 "a" (by decide) (by decide)
      rw [this]; rfl,
    h.2.2.1 (by decide) "host" (Val.str "a") (by decide),
    h.2.2.2.1 "a" (Or.inl (by decide))⟩

/-- C3: when the stat succeeds and the mtime equals the stored
`modifyTime`, the cycle performs no read and no parse, emits no event at all,
and leaves the instance unchanged. -/
theorem unchanged_mtime_skips_cycle (fs : FS) (ps : Parsers) (h : Handlers)
    (inst : Inst) (mtime : Int)
    (hstat : fs.stat inst.options.filename = Except.ok mtime)
    (heq : inst.options.modifyTime = mtime) :
    (update fs ps h inst).inst = inst
      ∧ (update fs ps h inst).events = []
      ∧ (∀ f, Action.readA f ∉ (update fs ps h inst).actions)
      ∧ Action.parseA ∉ (update fs ps h inst).actions
      ∧ (∀ m, Event.update m ∉ (update fs ps h inst).events) := by
  rw [update_unchanged fs ps h inst mtime hstat heq]
  refine ⟨rfl, rfl, ?_, ?_, ?_⟩
  · intro f hf
    simp [finishOk] at hf
  · intro hf
    simp [finishOk] at hf
  · intro m hm
    simp [finishOk] at hm

/-- Witness for C3: a concrete cycle whose statted mtime equals the stored
timestamp. -/
theorem unchanged_mtime_skips_cycle_witness :
    (update fsSame psFix hSafe instFix).inst = instFix
      ∧ (update fsSame psFix hSafe instFix).events = []
      ∧ Action.parseA ∉ (update fsSame psFix hSafe instFix).actions :=
  ⟨(unchanged_mtime_skips_cycle fsSame psFix hSafe instFix 0 rfl rfl).1,
   (unchanged_mtime_skips_cycle fsSame psFix hSafe instFix 0 rfl rfl).2.1,
   (unchanged_mtime_skips_cycle fsSame psFix hSafe instFix 0 rfl rfl).2.2.2.1⟩

/-- C4: after a successful reload, every key of the merged config — the keys
of this cycle and all earlier ones — has a bound property whose descriptor has
a getter and no setter, and reading it returns exactly the current
`config[key]`. -/
theorem reload_binds_live_readonly_props (fs : FS) (ps : Parsers)
    (h : Handlers) (inst : Inst) (mtime : Int) (content : String) (c : Obj)
    (hstat : fs.stat inst.options.filename = Except.ok mtime)
    (hne : inst.options.modifyTime ≠ mtime)
    (hread : fs.read inst.options.filename = Except.ok content)
    (hparse : parseContent ps inst.options.filename content = Except.ok c) :
    ∀ k, k ∈ objKeys (update fs ps h inst).inst.config →
      ((k, boundDescriptor) ∈ (update fs ps h inst).inst.props
        ∧ propGet (update fs ps h inst).inst k
            = objGet (update fs ps h inst).inst.config k
        ∧ boundDescriptor.hasSetter = false) := by
  have hinst := update_reload_inst fs ps h inst mtime content c hstat hne hread hparse
  rw [hinst]
  intro k hk
  have hprops : (applyReload inst mtime c).props
      = (objKeys (applyReload inst mtime c).config).map
          (fun k => (k, boundDescriptor)) := rfl
  refine ⟨?_, ?_, rfl⟩
  · rw [hprops]
    exact List.mem_map.mpr ⟨k, hk, rfl⟩
  · unfold propGet
    have hmap : (applyReload inst mtime c).props.map Prod.fst
        = objKeys (applyReload inst mtime c).config := by
      rw [hprops, List.map_map]
      have hid : (Prod.fst ∘ fun k : String => (k, boundDescriptor)) = id := rfl
      rw [hid, List.map_id]
    rw [hmap, if_pos hk]

/-- Witness for C4: the key `a`, merged in an earlier cycle, is still a live
read-only projection after the new reload. -/
theorem reload_binds_live_readonly_props_witness :
    ("a", boundDescriptor) ∈ (update fsOk psFix hSafe instFix).inst.props
      ∧ propGet (update fsOk psFix hSafe instFix).inst "a"
          = objGet (update fsOk psFix hSafe instFix).inst.config "a"
      ∧ boundDescriptor.hasSetter = false :=
  reload_binds_live_readonly_props fsOk psFix hSafe instFix 7 "host: a"
    [("host", Val.str "a")] rfl (by decide) rfl rfl "a" (by decide)

/-- C5: the `update` event of a successful reload carries exactly the freshly
parsed mapping `c`: an `update` event with payload `c` is emitted, and every
`update` event of the cycle has payload `c` (never the merged state). -/
theorem update_event_carries_fresh_mapping (fs : FS) (ps : Parsers)
    (h : Handlers) (inst : Inst) (mtime : Int) (content : String) (c : Obj)
    (hstat : fs.stat inst.options.filename = Except.ok mtime)
    (hne : inst.options.modifyTime ≠ mtime)
    (hread : fs.read inst.options.filename = Except.ok content)
    (hparse : parseContent ps inst.options.filename content = Except.ok c) :
    Event.update c ∈ (update fs ps h inst).events
      ∧ ∀ m, Event.update m ∈ (update fs ps h inst).events → m = c := by
  rcases update_reload_events fs ps h inst mtime content c hstat hne hread hparse
    with hev | ⟨exn, hev⟩
  · rw [hev]
    constructor
    · exact List.mem_singleton.mpr rfl
    · intro m hm
      have := List.mem_singleton.mp hm
      simpa using this
  · rw [hev]
    constructor
    · exact List.mem_cons_self _ _
    · intro m hm
      rcases List.mem_cons.mp hm with h1 | h1
      · simpa using h1
      · simp at h1

/-- Witness for C5: the fresh mapping `host: "a"` is the update payload even
though the merged config also holds the older key `a`. -/
theorem update_event_carries_fresh_mapping_witness :
    Event.update [("host", Val.str "a")] ∈ (update fsOk psFix hSafe instFix).events :=
  (update_event_carries_fresh_mapping fsOk psFix hSafe instFix 7 "host: a"
    [("host", Val.str "a")] rfl (by decide) rfl rfl).1

/-- C6: parse dispatch — a lowercased extension of `.yaml`, `.yml` or `.json`
goes to the YAML parser; any other extension is evaluated as source text, as a
module body when the content contains `module.exports`, otherwise as a bare
expression. -/
theorem parse_dispatch_by_extension (ps : Parsers) (filename content : String) :
    (jsToLowerCase (extname filename) = ".yaml"
        ∨ jsToLowerCase (extname filename) = ".yml"
        ∨ jsToLowerCase (extname filename) = ".json" →
      parseContent ps filename content = ps.yamlLoad content)
    ∧ (¬(jsToLowerCase (extname filename) = ".yaml"
        ∨ jsToLowerCase (extname filename) = ".yml"
        ∨ jsToLowerCase (extname filename) = ".json") →
      (strContains content "module.exports" = true →
        parseContent ps filename content = ps.evalModule content)
      ∧ (strContains content "module.exports" = false →
        parseContent ps filename content = ps.evalExpr content)) := by
  constructor
  · intro hy
    unfold parseContent
    rw [if_pos hy]
  · intro hn
    constructor
    · intro hm
      unfold parseContent
      rw [if_neg hn, if_pos hm]
    · intro hm
      unfold parseContent
      rw [if_neg hn, if_neg (by simp [hm])]

/-- Witness for C6: an uppercase `.JSON` file goes to the YAML parser; a `.js`
file goes to the module evaluator when it contains `module.exports` and to the
expression evaluator otherwise. -/
theorem parse_dispatch_by_extension_witness :
    parseContent psFix "dir/conf.JSON" "x" = psFix.yamlLoad "x"
      ∧ parseContent psFix "dir/conf.js" "module.exports = 1"
          = psFix.evalModule "module.exports = 1"
      ∧ parseContent psFix "dir/conf.js" "1 + 1" = psFix.evalExpr "1 + 1" :=
  ⟨(parse_dispatch_by_extension psFix "dir/conf.JSON" "x").1 (by decide),
   ((parse_dispatch_by_extension psFix "dir/conf.js" "module.exports = 1").2
      (by decide)).1 (by decide),
   ((parse_dispatch_by_extension psFix "dir/conf.js" "1 + 1").2
      (by decide)).2 (by decide)⟩

/-- C7 counterexample: a later polling cycle with no `error` listener and a
vanished file does crash — the unhandled `error` emission throws out of the
timer callback (`thrown` is set and the next timer is never scheduled),
refuting "every later polling-cycle error, even with no listener registered,
does not crash the process". -/
theorem later_error_without_listener_throws :
    (update fsGone psFix { } instFix).thrown
        = some "Unhandled error. (ENOENT)"
      ∧ (update fsGone psFix { } instFix).timerScheduled = false :=
  ⟨rfl, rfl⟩

/-- C7 (amended): the first load runs synchronously inside the constructor,
and with no `onerror` registered a first-load error propagates to the
constructor's caller; a later polling-cycle error does not escape the cycle
when an `onerror` listener that does not itself throw is registered — with no
listener the unhandled `error` emission throws out of the timer callback. -/
theorem first_load_sync_error_contract :
    (∀ (fs : FS) (ps : Parsers) (fn : String) (uo : UserOptions) (e : String),
      uo.onerror = none →
      fs.stat (mkOptions fn uo).filename = Except.error e →
      (construct fs ps fn uo).thrown ≠ none)
    ∧ (∀ (fs : FS) (ps : Parsers) (h : Handlers) (inst : Inst)
        (g : String → Option String),
      h.onerror = some g → (∀ m, g m = none) →
      (update fs ps h inst).thrown = none
        ∧ (update fs ps h inst).timerScheduled = true) := by
  constructor
  · intro fs ps fn uo e hoe hstat
    unfold construct
    have hstat' :
        fs.stat ({ options := mkOptions fn uo, config := [], props := [] }
          : Inst).options.filename = Except.error e := hstat
    rw [update_stat_error fs ps (handlersOf uo) _ e hstat']
    have hno : (handlersOf uo).onerror = none := by
      simp [handlersOf, hoe]
    rw [(emitErrorAndFinish_none_thrown (handlersOf uo) _ _ _ e hno).1]
    simp
  · intro fs ps h inst g hg hnone
    exact update_safe_no_throw fs ps h inst g hg hnone

/-- Witness for C7 (amended): a concrete missing-file construction with no
listener throws; a concrete later failed cycle with a quiet listener does
not. -/
theorem first_load_sync_error_contract_witness :
    (construct fsGone psFix "conf.json" { }).thrown ≠ none
      ∧ (update fsGone psFix hSafe instFix).thrown = none :=
  ⟨first_load_sync_error_contract.1 fsGone psFix "conf.json" { } "ENOENT"
      rfl rfl,
   (first_load_sync_error_contract.2 fsGone psFix hSafe instFix
      (fun _ => none) rfl (fun _ => rfl)).1⟩

/-- C8 counterexample: an `onupdate` handler that throws during a successful
reload is caught by the cycle's own catch block — nothing propagates, the
exception is converted into an `error` event, and the next poll timer is still
scheduled — refuting "the watcher does not catch or recover from it: the
exception propagates out of the cycle and the next poll timer is not
scheduled". -/
theorem onupdate_exception_caught_and_rescheduled :
    (update fsOk psFix hThrowUpd instFix).thrown = none
      ∧ (update fsOk psFix hThrowUpd instFix).timerScheduled = true
      ∧ (update fsOk psFix hThrowUpd instFix).events
          = [Event.update [("host", Val.str "a")], Event.error "boom"] :=
  ⟨rfl, rfl, rfl⟩

/-- C8 (amended): an exception from the `onupdate` handler is caught by the
try/catch of the cycle and turned into an `error` event; it propagates out of
the cycle (and skips the timer) only if the `onerror` handler itself throws,
in which case the `onerror` handler's exception escapes. -/
theorem handler_exception_contract (fs : FS) (ps : Parsers) (h : Handlers)
    (inst : Inst) (mtime : Int) (content : String) (c : Obj)
    (fu : Obj → Option String) (exn : String)
    (hstat : fs.stat inst.options.filename = Except.ok mtime)
    (hne : inst.options.modifyTime ≠ mtime)
    (hread : fs.read inst.options.filename = Except.ok content)
    (hparse : parseContent ps inst.options.filename content = Except.ok c)
    (hu : h.onupdate = some fu) (hthrow : fu c = some exn) :
    (∀ g, h.onerror = some g → g exn = none →
        (update fs ps h inst).thrown = none
          ∧ (update fs ps h inst).timerScheduled = true
          ∧ (update fs ps h inst).events
              = [Event.update c, Event.error exn])
    ∧ (∀ g e2, h.onerror = some g → g exn = some e2 →
        (update fs ps h inst).thrown = some e2
          ∧ (update fs ps h inst).timerScheduled = false) := by
  have hchar := update_reload_char fs ps h inst mtime content c hstat hne hread hparse
  have hemit : emitUpdate h c = some exn := by
    simp [emitUpdate, hu, hthrow]
  simp only [hemit] at hchar
  constructor
  · intro g hg hquiet
    rw [hchar]
    have hok := emitErrorAndFinish_handled h g exn hg hquiet
      (applyReload inst mtime c) [Event.update c] (reloadActions inst)
    exact ⟨hok.1, hok.2, by simp [emitErrorAndFinish_events]⟩
  · intro g e2 hg hrethrow
    rw [hchar]
    exact emitErrorAndFinish_rethrow h g exn e2 hg hrethrow
      (applyReload inst mtime c) [Event.update c] (reloadActions inst)

/-- Witness for C8 (amended): with a quiet `onerror` the throwing `onupdate`
is absorbed; with a rethrowing `onerror` the exception escapes. -/
theorem handler_exception_contract_witness :
    ((update fsOk psFix hThrowUpd instFix).thrown = none
      ∧ (update fsOk psFix hThrowBoth instFix).thrown = some "boom") :=
  ⟨((handler_exception_contract fsOk psFix hThrowUpd instFix 7 "host: a"
      [("host", Val.str "a")] (fun _ => some "boom") "boom" rfl (by decide)
      rfl rfl rfl rfl).1 (fun _ => none) rfl rfl).1,
   ((handler_exception_contract fsOk psFix hThrowBoth instFix 7 "host: a"
      [("host", Val.str "a")] (fun _ => some "boom") "boom" rfl (by decide)
      rfl rfl rfl rfl).2 (fun m => some m) "boom" rfl rfl).1⟩

/-- C9 counterexample: a successful reload of a file whose mtime (3) is older
than the stored `modifyTime` (5) sets `modifyTime` to 3 — strictly smaller
than before — refuting monotonic non-decrease. -/
theorem modifyTime_can_decrease :
    instLate.options.modifyTime = 5
      ∧ (update fsOld psFix { } instLate).events
          = [Event.update [("host", Val.str "a")]]
      ∧ (update fsOld psFix { } instLate).inst.options.modifyTime = 3
      ∧ (update fsOld psFix { } instLate).inst.options.modifyTime
          < instLate.options.modifyTime :=
  ⟨rfl, rfl, rfl, by decide⟩

/-- C9 (amended): `modifyTime` is either left unchanged by a cycle or set to
exactly the mtime the successful stat of that cycle returned — it tracks the
file's reported timestamp rather than being monotonically non-decreasing. -/
theorem modifyTime_tracks_stat (fs : FS) (ps : Parsers) (h : Handlers)
    (inst : Inst) :
    (update fs ps h inst).inst.options.modifyTime = inst.options.modifyTime
      ∨ fs.stat inst.options.filename
          = Except.ok ((update fs ps h inst).inst.options.modifyTime) := by
  rcases update_inst_cases fs ps h inst with hcase | ⟨mtime, c, hstat, hcase⟩
  · left
    rw [hcase]
  · right
    rw [hcase]
    exact hstat

/-- C10: because the caller's options object is assigned over the defaults,
caller-supplied `filename`, `modifyTime` and `interval` keys silently replace
the constructor's filename argument, the initial timestamp 0 and the default
60000 ms interval; in particular the watcher's first cycle stats the
options-supplied filename. -/
theorem options_object_overrides_defaults (fn f : String) (uo : UserOptions)
    (mt : Int) (iv : Nat) :
    (uo.filename = some f → (mkOptions fn uo).filename = f)
    ∧ (uo.filename = none → (mkOptions fn uo).filename = fn)
    ∧ (uo.modifyTime = some mt → (mkOptions fn uo).modifyTime = mt)
    ∧ (uo.modifyTime = none → (mkOptions fn uo).modifyTime = 0)
    ∧ (uo.interval = some iv → (mkOptions fn uo).interval = iv)
    ∧ (uo.interval = none → (mkOptions fn uo).interval = 60000)
    ∧ (∀ fs ps, ∃ rest, (construct fs ps fn uo).actions
        = Action.statA (mkOptions fn uo).filename :: rest) := by
  refine ⟨?_, ?_, ?_, ?_, ?_, ?_, ?_⟩
  · intro h1; simp [mkOptions, h1]
  · intro h1; simp [mkOptions, h1]
  · intro h1; simp [mkOptions, h1]
  · intro h1; simp [mkOptions, h1]
  · intro h1; simp [mkOptions, h1]
  · intro h1; simp [mkOptions, h1]
  · intro fs ps
    unfold construct
    exact update_first_action fs ps (handlersOf uo) _

/-- Witness for C10: options carrying `filename`, `modifyTime` and `interval`
override the constructor argument and the defaults, and the first cycle stats
the options-supplied file. -/
theorem options_object_overrides_defaults_witness :
    (mkOptions "orig.json" uoW).filename = "alt.yaml"
      ∧ (mkOptions "orig.json" uoW).modifyTime = 42
      ∧ (mkOptions "orig.json" uoW).interval = 500
      ∧ ∃ rest, (construct fsGone psFix "orig.json" uoW).actions
          = Action.statA (mkOptions "orig.json" uoW).filename :: rest := by
  have h := options_object_overrides_defaults "orig.json" "alt.yaml" uoW 42 500
  exact ⟨h.1 rfl, h.2.2.1 rfl, h.2.2.2.2.1 rfl, h.2.2.2.2.2.2 fsGone psFix⟩

end RtConfig
